import Mathlib

/-!
# Verification of the TogoMCP tool-aggregation server and evaluation harness

Shallow embedding of the Python sources of the `togo-mcp` repository:

* `src/togo_mcp/server.py` — endpoint-table loading (`load_sparql_endpoints`),
  SPARQL query execution (`execute_sparql`), and the merge of generated tools
  into the primary tool registry;
* `src/evaluation/scripts/automated_test_runner.py` — the evaluation harness
  (`TestRunner._make_api_call`, `TestRunner._run_with_retry`).

Python strings are modelled as lists of character codes (`PyStr := List Nat`);
`str.lower()` is modelled on the ASCII letter range, which covers every string
manipulated by the code under study.  Python `dict` is modelled as an
association list with insert-or-replace semantics (an existing key keeps its
position and gets the new value; a fresh key is appended), matching CPython's
insertion-ordered dictionaries.  Fallible code returns `Except`; the network
is an explicit oracle function, and outbound requests are collected in a
trace list.
-/

namespace TogoMCP

/-- A Python string, as its list of character codes. -/
abbrev PyStr := List Nat

/-- Character codes of a Lean string literal, for writing concrete examples. -/
def strCodes (s : String) : PyStr :=
  s.data.map Char.toNat

/-- `str.lower()` on one character code (ASCII letter range `A`–`Z`). -/
def pyLower (c : Nat) : Nat :=
  if 65 ≤ c ∧ c ≤ 90 then c + 32 else c

/-- The key normalization of `load_sparql_endpoints` (server.py line 25):
`db_name.lower().replace(' ', '_').replace('-', '')` — lower-case, then every
space (code 32) becomes an underscore (code 95), then every hyphen (code 45)
is removed. -/
def canonicalKey (name : PyStr) : PyStr :=
  (((name.map pyLower).map fun c => if c = 32 then 95 else c).filter fun c => c ≠ 45)

/-- The canonicalization in the words of the spec (§4.1):
`key = lowercase(name).replace(" ", "").replace("-", "")` — spaces are
*removed*, not replaced by underscores.  Kept separately so that it can be
compared against `canonicalKey`, the one implemented by the source. -/
def specCanonicalKey (name : PyStr) : PyStr :=
  (((name.map pyLower).filter fun c => c ≠ 32).filter fun c => c ≠ 45)

/-- Python `dict` insert-or-replace: if `k` is already a key of `d`, its value
is replaced in place, otherwise `(k, v)` is appended. -/
def dictInsert (d : List (PyStr × PyStr)) (k v : PyStr) : List (PyStr × PyStr) :=
  if d.any fun p => p.1 = k then
    d.map fun p => if p.1 = k then (k, v) else p
  else
    d ++ [(k, v)]

/-- Python `dict` lookup: the value of the first (and in a real dict, only)
entry with key `k`. -/
def dictLookup (d : List (PyStr × PyStr)) (k : PyStr) : Option PyStr :=
  (d.find? fun p => p.1 = k).map Prod.snd

/-- The keys of a modelled dict, in insertion order. -/
def dictKeys (d : List (PyStr × PyStr)) : List PyStr :=
  d.map Prod.fst

/-- Errors of `load_sparql_endpoints`. -/
inductive LoadError where
  /-- `next(reader)` raised `StopIteration`: the file has no header row. -/
  | emptyFile : LoadError
  /-- `db_name, endpoint_url = row` raised `ValueError`: a data row does not
  have exactly two columns. -/
  | malformedRow : LoadError
deriving DecidableEq, Repr

instance {ε α : Type} [DecidableEq ε] [DecidableEq α] : DecidableEq (Except ε α)
  | .error a, .error b => decidable_of_iff (a = b) (by simp)
  | .error _, .ok _ => .isFalse (by simp)
  | .ok _, .error _ => .isFalse (by simp)
  | .ok a, .ok b => decidable_of_iff (a = b) (by simp)

/-- The tuple unpacking `db_name, endpoint_url = row`: succeeds exactly when
the row has two columns. -/
def parseRow : List PyStr → Option (PyStr × PyStr)
  | [name, url] => some (name, url)
  | _ => none

/-- The row loop of `load_sparql_endpoints` (server.py lines 23-27), threading
the `endpoints` dict: each well-formed row inserts
`endpoints[canonicalKey name] = url`; a malformed row aborts the whole load. -/
def loadRows : List (List PyStr) → List (PyStr × PyStr) →
    Except LoadError (List (PyStr × PyStr))
  | [], d => .ok d
  | r :: rs, d =>
    match parseRow r with
    | some (name, url) => loadRows rs (dictInsert d (canonicalKey name) url)
    | none => .error .malformedRow

/-- `load_sparql_endpoints` (server.py lines 18-28): skip the header row, then
fold the data rows into a dict.  The rows of the CSV file are the input. -/
def loadSparqlEndpoints : List (List PyStr) → Except LoadError (List (PyStr × PyStr))
  | [] => .error .emptyFile
  | _header :: rows => loadRows rows []

/-! ## Query executor (`execute_sparql`, server.py lines 35-53) -/

/-- One outbound HTTP POST, as issued by `execute_sparql`: the resolved URL,
the query text carried as the `query` form field, and the `Accept` header. -/
structure Request where
  url : PyStr
  query : PyStr
  accept : PyStr
deriving DecidableEq, Repr

/-- An HTTP response: status code and body text. -/
structure HttpResponse where
  status : Nat
  text : PyStr
deriving DecidableEq, Repr

/-- Errors of `execute_sparql`. -/
inductive ExecError where
  /-- `raise ValueError(f"Unknown database: \x7bdbname\x7d")` (server.py line 45). -/
  | unknownDatabase (dbname : PyStr) : ExecError
  /-- `response.raise_for_status()` raised `HTTPStatusError` on a non-2xx status. -/
  | httpStatusError (status : Nat) : ExecError
deriving DecidableEq, Repr

/-- `execute_sparql` (server.py lines 35-53) over an endpoint table `table`
and a network oracle `net`.  Returns the result together with the trace of
outbound requests: the unknown-database check happens before the HTTP client
is even created, so on an unknown key the trace is empty; otherwise exactly
one POST is issued and, when `raise_for_status` passes (2xx), the response
body is returned verbatim. -/
def executeSparql (table : List (PyStr × PyStr)) (net : Request → HttpResponse)
    (sparqlQuery dbname : PyStr) : Except ExecError PyStr × List Request :=
  match dictLookup table dbname with
  | none => (.error (.unknownDatabase dbname), [])
  | some url =>
    let req : Request := ⟨url, sparqlQuery, strCodes "text/csv"⟩
    let resp := net req
    if 200 ≤ resp.status ∧ resp.status < 300 then
      (.ok resp.text, [req])
    else
      (.error (.httpStatusError resp.status), [req])

/-! ## Tool registry merge (server.py lines 77-80) and generated-tool naming -/

/-- A registration failure. -/
inductive RegError where
  /-- The name of the descriptor being registered is already taken. -/
  | nameCollision (name : PyStr) : RegError
deriving DecidableEq, Repr

/-- Modelled from the spec: the Registry operation
`register(descriptor) -> void | Error(NameCollision)` (§4.4) — the source's
`mcp.add_tool` lives in the `fastmcp` library, whose code is not part of this
repository.  Registering a name already present fails with `NameCollision`;
otherwise the name is appended to the registry. -/
def register (reg : List PyStr) (name : PyStr) : Except RegError (List PyStr) :=
  if name ∈ reg then .error (.nameCollision name) else .ok (reg ++ [name])

/-- The bulk-merge loop of server.py lines 77-80:
`for key in togoid_tools: mcp.add_tool(togoid_tools[key])`, one `register`
per descriptor name.  A raised error propagates out of the loop, leaving the
registrations already performed in place, so the function returns the final
registry state together with the error, if any. -/
def registerAllLoop : List PyStr → List PyStr → List PyStr × Option RegError
  | reg, [] => (reg, none)
  | reg, n :: ns =>
    match register reg n with
    | .ok reg2 => registerAllLoop reg2 ns
    | .error e => (reg, some e)

/-- Modelled from the spec: the Schema-Derived Tool Generator's naming rule
(§4.3) — `FastMCP.from_openapi` lives in the `fastmcp` library, whose code is
not part of this repository.  The generator assigns a default name derived
from the schema operation identifier (here: the identifier itself); if the
rename map supplies an explicit alternate name for that identifier, the
alternate name is used instead. -/
def generatedToolName (renameMap : List (PyStr × PyStr)) (opId : PyStr) : PyStr :=
  match dictLookup renameMap opId with
  | some alt => alt
  | none => opId

/-- The `mcp_names` rename map passed to `FastMCP.from_openapi`
(server.py lines 66-74). -/
def mcpNames : List (PyStr × PyStr) :=
  [ (strCodes "getAllDataset", strCodes "togoId_getAllDataset"),
    (strCodes "getDataset", strCodes "togoId_getDataset"),
    (strCodes "getAllRelation", strCodes "togoId_getAllRelation"),
    (strCodes "getRelation", strCodes "togoId_getRelation"),
    (strCodes "convertId", strCodes "togoId_convertId"),
    (strCodes "countId", strCodes "togoId_countId"),
    (strCodes "getDescription", strCodes "togoId_getDescription") ]

/-! ## Evaluation harness (`automated_test_runner.py`) -/

/-- One content block of a chat-completion response. -/
inductive Block where
  | text (s : PyStr) : Block
  | toolUse (name : PyStr) (input : PyStr) : Block
deriving DecidableEq, Repr

/-- A successful chat-completion response, at the granularity
`_make_api_call` consumes. -/
structure ApiResponse where
  content : List Block
  stopReason : PyStr
  inputTokens : Nat
  outputTokens : Nat
deriving DecidableEq, Repr

/-- The outcome of `self.client.messages.create(**kwargs)` together with the
following response processing: either a response, or a raised exception
(`except Exception as e` scope) carrying its message `str(e)`. -/
inductive ApiOutcome where
  | ok (resp : ApiResponse) : ApiOutcome
  | raised (msg : PyStr) : ApiOutcome
deriving DecidableEq, Repr

/-- Whether the outcome is a successful response. -/
def ApiOutcome.success : ApiOutcome → Bool
  | .ok _ => true
  | .raised _ => false

/-- A value of the result dictionary built by `_make_api_call`. -/
inductive PyVal where
  | vBool (b : Bool) : PyVal
  | vStr (s : PyStr) : PyVal
  | vFloat (t : Nat) : PyVal
  | vTools (tools : List (PyStr × PyStr)) : PyVal
  | vUsage (inputTokens outputTokens : Nat) : PyVal
deriving DecidableEq, Repr

/-- Lookup in a modelled dict with values of any type. -/
def lookupKey {α : Type} (d : List (PyStr × α)) (k : PyStr) : Option α :=
  (d.find? fun p => p.1 = k).map Prod.snd

/-- The `text_content` accumulation of `_make_api_call` (lines 135-137):
the texts of the `text` blocks, in order. -/
def extractTexts : List Block → List PyStr
  | [] => []
  | .text s :: bs => s :: extractTexts bs
  | .toolUse _ _ :: bs => extractTexts bs

/-- The `tool_uses` accumulation of `_make_api_call` (lines 138-142):
the (name, input) pairs of the `tool_use` blocks, in order. -/
def extractToolUses : List Block → List (PyStr × PyStr)
  | [] => []
  | .text _ :: bs => extractToolUses bs
  | .toolUse n i :: bs => (n, i) :: extractToolUses bs

/-- `TestRunner._make_api_call` (automated_test_runner.py lines 94-162),
as a function of the call outcome and the measured elapsed time: the entire
call and response processing sit inside `try`/`except Exception`, so every
outcome yields a result dictionary — the success dictionary of lines 144-154
or the failure dictionary of lines 158-162. -/
def makeApiCall : ApiOutcome → Nat → List (PyStr × PyVal)
  | .ok r, elapsed =>
    [ (strCodes "success", .vBool true),
      (strCodes "text", .vStr (List.intercalate (strCodes "\n") (extractTexts r.content))),
      (strCodes "tool_uses", .vTools (extractToolUses r.content)),
      (strCodes "elapsed_time", .vFloat elapsed),
      (strCodes "stop_reason", .vStr r.stopReason),
      (strCodes "usage", .vUsage r.inputTokens r.outputTokens) ]
  | .raised msg, elapsed =>
    [ (strCodes "success", .vBool false),
      (strCodes "error", .vStr msg),
      (strCodes "elapsed_time", .vFloat elapsed) ]

/-- The truthiness test `if result["success"]:` of `_run_with_retry`. -/
def isSuccess (r : List (PyStr × PyVal)) : Bool :=
  match lookupKey r (strCodes "success") with
  | some (.vBool b) => b
  | _ => false

/-- What one execution of `_run_with_retry` did: the returned result
dictionary, the number of `_make_api_call` calls made, and the list of sleep
durations performed, in order. -/
structure RetryTrace where
  result : List (PyStr × PyVal)
  calls : Nat
  sleeps : List Nat
deriving DecidableEq, Repr

/-- The loop of `TestRunner._run_with_retry` (lines 164-176), starting at
attempt `i` with `remaining` iterations left, over the per-attempt call
outcomes `outcomes` and elapsed times `times`; `delay` is
`config["retry_delay"]`.  With `remaining = 0` the loop body never runs and
the final `return result` raises `NameError` (`result` is unbound): `none`.
On the last iteration the guard `attempt < retry_attempts - 1` fails, so no
sleep follows a final failure. -/
def retryFrom (outcomes : Nat → ApiOutcome) (times : Nat → Nat) (delay : Nat)
    (i : Nat) : Nat → Option RetryTrace
  | 0 => none
  | 1 => some ⟨makeApiCall (outcomes i) (times i), 1, []⟩
  | remaining + 2 =>
    let r := makeApiCall (outcomes i) (times i)
    if isSuccess r then
      some ⟨r, 1, []⟩
    else
      (retryFrom outcomes times delay (i + 1) (remaining + 1)).map
        fun t => ⟨t.result, t.calls + 1, delay :: t.sleeps⟩

/-- `TestRunner._run_with_retry` (lines 164-176): `config["retry_attempts"]`
iterations starting from attempt 0. -/
def runWithRetry (cfgAttempts cfgDelay : Nat) (outcomes : Nat → ApiOutcome)
    (times : Nat → Nat) : Option RetryTrace :=
  retryFrom outcomes times cfgDelay 0 cfgAttempts

/-! ## Derived notions used by the statements -/

/-- The URL of the last row (in file order) whose display name normalizes to
`k`, among well-formed rows. -/
def lastUrlFor : List (List PyStr) → PyStr → Option PyStr
  | [], _ => none
  | r :: rs, k =>
    match lastUrlFor rs k with
    | some u => some u
    | none =>
      match parseRow r with
      | some (name, url) => if canonicalKey name = k then some url else none
      | none => none

/-- Number of occurrences of `k` in a list of keys. -/
def countOcc (l : List PyStr) (k : PyStr) : Nat :=
  (l.filter fun x => x = k).length

/-- The invariant shape of a canonical key: no space (code 32), no hyphen
(code 45), and no ASCII upper-case letter (codes 65–90). -/
def canonicalShaped (k : PyStr) : Prop :=
  ∀ c ∈ k, c ≠ 32 ∧ c ≠ 45 ∧ ¬(65 ≤ c ∧ c ≤ 90)

instance (k : PyStr) : Decidable (canonicalShaped k) := by
  unfold canonicalShaped
  infer_instance

/-! ## Dictionary lemmas -/

theorem dictKeys_nil : dictKeys [] = [] := rfl

theorem any_key_iff_mem (d : List (PyStr × PyStr)) (k : PyStr) :
    (d.any fun p => p.1 = k) = true ↔ k ∈ dictKeys d := by
  simp only [List.any_eq_true, dictKeys, List.mem_map, decide_eq_true_eq]

theorem dictLookup_nil_eq (k : PyStr) : dictLookup [] k = none := rfl

theorem dictLookup_cons (q : PyStr × PyStr) (l : List (PyStr × PyStr)) (k : PyStr) :
    dictLookup (q :: l) k = if q.1 = k then some q.2 else dictLookup l k := by
  by_cases h : q.1 = k
  · simp [dictLookup, List.find?_cons_of_pos, h]
  · simp [dictLookup, List.find?_cons_of_neg, h]

theorem dictKeys_cons (q : PyStr × PyStr) (l : List (PyStr × PyStr)) :
    dictKeys (q :: l) = q.1 :: dictKeys l := rfl

theorem dictLookup_eq_none_iff (d : List (PyStr × PyStr)) (k : PyStr) :
    dictLookup d k = none ↔ k ∉ dictKeys d := by
  induction d with
  | nil => simp [dictLookup, dictKeys]
  | cons p d ih =>
    rw [dictLookup_cons, dictKeys_cons]
    by_cases hp : p.1 = k
    · simp [hp]
    · simp only [hp, if_false, ih, List.mem_cons]
      constructor
      · intro h hc
        rcases hc with hc | hc
        · exact hp hc.symm
        · exact h hc
      · intro h hc
        exact h (Or.inr hc)

theorem dictLookup_replace (d : List (PyStr × PyStr)) (k v k' : PyStr) :
    dictLookup (d.map fun p => if p.1 = k then (k, v) else p) k' =
      if k' = k then (if k ∈ dictKeys d then some v else none)
      else dictLookup d k' := by
  induction d with
  | nil => by_cases h : k' = k <;> simp [dictLookup, dictKeys, h]
  | cons p d ih =>
    by_cases hp : p.1 = k
    · by_cases hk : k' = k
      · subst hk
        have hmem : k' ∈ dictKeys (p :: d) := by simp [dictKeys_cons, hp]
        simp [dictLookup_cons, hp, hmem]
      · have hk2 : ¬k = k' := fun h => hk h.symm
        simp [dictLookup_cons, hp, hk, hk2, ih]
    · by_cases hpk' : p.1 = k'
      · have hk : ¬k' = k := fun h => hp (hpk'.trans h)
        simp [dictLookup_cons, hp, hpk', hk]
      · have hkp : ¬k = p.1 := fun h => hp h.symm
        simp [dictLookup_cons, dictKeys_cons, hp, hpk', hkp, ih]

theorem dictLookup_append_single (d : List (PyStr × PyStr)) (k v k' : PyStr) :
    dictLookup (d ++ [(k, v)]) k' =
      match dictLookup d k' with
      | some u => some u
      | none => if k' = k then some v else none := by
  induction d with
  | nil =>
    by_cases h : k' = k
    · simp [dictLookup_cons, dictLookup_nil_eq, h]
    · have h2 : ¬k = k' := fun e => h e.symm
      simp [dictLookup_cons, dictLookup_nil_eq, h, h2]
  | cons p d ih =>
    by_cases hp : p.1 = k'
    · simp [List.cons_append, dictLookup_cons, hp]
    · simpa [List.cons_append, dictLookup_cons, hp] using ih

theorem dictLookup_insert (d : List (PyStr × PyStr)) (k v k' : PyStr) :
    dictLookup (dictInsert d k v) k' = if k' = k then some v else dictLookup d k' := by
  unfold dictInsert
  by_cases hany : (d.any fun p => p.1 = k) = true
  · rw [if_pos hany, dictLookup_replace]
    have hmem : k ∈ dictKeys d := (any_key_iff_mem d k).mp hany
    by_cases h : k' = k <;> simp [h, hmem]
  · rw [if_neg hany, dictLookup_append_single]
    have hmem : k ∉ dictKeys d := fun h => hany ((any_key_iff_mem d k).mpr h)
    by_cases h : k' = k
    · subst h
      rw [(dictLookup_eq_none_iff d k').mpr hmem]
    · cases hd : dictLookup d k' <;> simp [h]

theorem dictKeys_insert (d : List (PyStr × PyStr)) (k v : PyStr) :
    dictKeys (dictInsert d k v) =
      if k ∈ dictKeys d then dictKeys d else dictKeys d ++ [k] := by
  unfold dictInsert
  by_cases hany : (d.any fun p => p.1 = k) = true
  · rw [if_pos hany, if_pos ((any_key_iff_mem d k).mp hany)]
    simp only [dictKeys, List.map_map]
    apply List.map_congr_left
    intro p _
    by_cases hp : p.1 = k <;> simp [hp]
  · rw [if_neg hany, if_neg (fun h => hany ((any_key_iff_mem d k).mpr h))]
    simp [dictKeys]

theorem dictKeys_insert_nodup (d : List (PyStr × PyStr)) (k v : PyStr)
    (h : (dictKeys d).Nodup) : (dictKeys (dictInsert d k v)).Nodup := by
  rw [dictKeys_insert]
  by_cases hmem : k ∈ dictKeys d
  · simpa [hmem] using h
  · simp only [hmem, if_false]
    simpa [List.nodup_append] using ⟨h, hmem⟩

/-! ## Loader lemmas -/

theorem loadRows_error_of_malformed (rows : List (List PyStr)) :
    ∀ d, (∃ r ∈ rows, parseRow r = none) → loadRows rows d = .error .malformedRow := by
  induction rows with
  | nil =>
    rintro d ⟨r, hr, _⟩
    cases hr
  | cons r rs ih =>
    rintro d ⟨r', hr', hnone⟩
    rcases List.mem_cons.mp hr' with rfl | hmem
    · simp [loadRows, hnone]
    · cases hpr : parseRow r with
      | none => simp [loadRows, hpr]
      | some p =>
        obtain ⟨name, url⟩ := p
        simp only [loadRows, hpr]
        exact ih _ ⟨r', hmem, hnone⟩

theorem loadRows_keys_origin (rows : List (List PyStr)) :
    ∀ d0 d, loadRows rows d0 = .ok d →
      ∀ k ∈ dictKeys d, k ∈ dictKeys d0 ∨ ∃ name, k = canonicalKey name := by
  induction rows with
  | nil =>
    intro d0 d h k hk
    simp only [loadRows] at h
    cases h
    exact .inl hk
  | cons r rs ih =>
    intro d0 d h k hk
    cases hpr : parseRow r with
    | none => simp [loadRows, hpr] at h
    | some p =>
      obtain ⟨name, url⟩ := p
      simp only [loadRows, hpr] at h
      rcases ih _ _ h k hk with h0 | hn
      · rw [dictKeys_insert] at h0
        by_cases hmem : canonicalKey name ∈ dictKeys d0
        · rw [if_pos hmem] at h0
          exact .inl h0
        · rw [if_neg hmem] at h0
          rcases List.mem_append.mp h0 with h1 | h1
          · exact .inl h1
          · exact .inr ⟨name, by simpa using h1⟩
      · exact .inr hn

theorem loadRows_wf_spec (rows : List (List PyStr)) :
    ∀ d, (∀ r ∈ rows, (parseRow r).isSome) →
      ∃ d2, loadRows rows d = .ok d2 ∧
        ((dictKeys d).Nodup → (dictKeys d2).Nodup) ∧
        (∀ k, dictLookup d2 k =
          match lastUrlFor rows k with
          | some u => some u
          | none => dictLookup d k) := by
  induction rows with
  | nil => exact fun d _ => ⟨d, rfl, id, fun k => rfl⟩
  | cons r rs ih =>
    intro d hwf
    have hr : (parseRow r).isSome := hwf r (List.mem_cons_self r rs)
    obtain ⟨p, hpr⟩ := Option.isSome_iff_exists.mp hr
    obtain ⟨name, url⟩ := p
    have hrs : ∀ r' ∈ rs, (parseRow r').isSome :=
      fun r' h => hwf r' (List.mem_cons_of_mem _ h)
    obtain ⟨d2, hok, hnd, hlk⟩ := ih (dictInsert d (canonicalKey name) url) hrs
    refine ⟨d2, by simp [loadRows, hpr, hok], ?_, ?_⟩
    · intro h
      exact hnd (dictKeys_insert_nodup _ _ _ h)
    · intro k
      rw [hlk k]
      cases hl : lastUrlFor rs k with
      | some u => simp [lastUrlFor, hl]
      | none =>
        rw [dictLookup_insert]
        by_cases hck : canonicalKey name = k
        · subst hck
          simp [lastUrlFor, hl, hpr]
        · have hck2 : ¬k = canonicalKey name := fun h => hck h.symm
          simp [lastUrlFor, hl, hpr, hck, hck2]

/-- The shape of every character of a canonical key: the lower-casing, the
space-to-underscore replacement and the hyphen filter leave no space, no
hyphen, and no ASCII upper-case letter. -/
theorem canonicalKey_shaped (name : PyStr) : canonicalShaped (canonicalKey name) := by
  intro c hc
  simp only [canonicalKey, List.mem_filter, List.mem_map] at hc
  obtain ⟨⟨b, ⟨a, _, rfl⟩, rfl⟩, h45⟩ := hc
  refine ⟨?_, by simpa using h45, ?_⟩
  · unfold pyLower
    split_ifs <;> omega
  · unfold pyLower
    split_ifs <;> omega

theorem countOcc_cons (a : PyStr) (l : List PyStr) (k : PyStr) :
    countOcc (a :: l) k = (if a = k then 1 else 0) + countOcc l k := by
  by_cases h : a = k
  · simp [countOcc, List.filter_cons, h]
    omega
  · simp [countOcc, List.filter_cons, h]

theorem countOcc_eq_zero_of_not_mem (l : List PyStr) (k : PyStr) :
    k ∉ l → countOcc l k = 0 := by
  induction l with
  | nil => intro _; rfl
  | cons a l ih =>
    intro h
    rw [countOcc_cons]
    have ha : ¬a = k := fun e => h (e ▸ List.mem_cons_self a l)
    rw [if_neg ha, ih (fun hm => h (List.mem_cons_of_mem a hm))]

theorem countOcc_eq_one_of_nodup_mem (l : List PyStr) (k : PyStr)
    (hnd : l.Nodup) (hmem : k ∈ l) : countOcc l k = 1 := by
  induction l with
  | nil => cases hmem
  | cons a l ih =>
    rw [countOcc_cons]
    rcases List.mem_cons.mp hmem with rfl | hm
    · rw [if_pos rfl, countOcc_eq_zero_of_not_mem l k (List.nodup_cons.mp hnd).1]
    · have ha : ¬a = k := fun e => (List.nodup_cons.mp hnd).1 (e ▸ hm)
      rw [if_neg ha, ih (List.nodup_cons.mp hnd).2 hm]

/-! ## Claims about the endpoint loader -/

/-- C1, counterexample: the loader replaces spaces by underscores instead of
removing them, so loading the row `"UniProt KB",url` yields the key
`"uniprot_kb"`, not `"uniprotkb"`; likewise `"RDF Portal"` yields
`"rdf_portal"`, not `"rdfportal"`, and `canonicalKey` differs from the
spec-worded `specCanonicalKey` on these names. -/
theorem canonicalKey_spec_counterexample :
    loadSparqlEndpoints
        [[strCodes "name", strCodes "url"],
         [strCodes "UniProt KB", strCodes "https://example.org/sparql"]] =
      .ok [(strCodes "uniprot_kb", strCodes "https://example.org/sparql")] ∧
    canonicalKey (strCodes "UniProt KB") ≠ strCodes "uniprotkb" ∧
    canonicalKey (strCodes "RDF Portal") ≠ strCodes "rdfportal" ∧
    canonicalKey (strCodes "UniProt KB") ≠ specCanonicalKey (strCodes "UniProt KB") := by
  decide

/-- C1, amended: for every display name, the canonical key produced by the
loader is the display name lower-cased with every space character replaced by
an underscore and every hyphen character removed; in particular
`"UniProt KB"` yields `"uniprot_kb"` and `"RDF Portal"` yields
`"rdf_portal"`. -/
theorem canonicalKey_amended :
    (∀ header name url,
      loadSparqlEndpoints [header, [name, url]] = .ok [(canonicalKey name, url)]) ∧
    canonicalKey (strCodes "UniProt KB") = strCodes "uniprot_kb" ∧
    canonicalKey (strCodes "RDF Portal") = strCodes "rdf_portal" := by
  refine ⟨?_, by decide, by decide⟩
  intro header name url
  simp [loadSparqlEndpoints, loadRows, parseRow, dictInsert]

/-- C5: a tabular source whose data rows contain any row without exactly two
columns makes the whole load fail with an error; no partial mapping of the
well-formed rows is returned. -/
theorem load_fails_on_malformed_row (header : List PyStr) (rows : List (List PyStr))
    (hbad : ∃ r ∈ rows, parseRow r = none) :
    loadSparqlEndpoints (header :: rows) = .error .malformedRow :=
  loadRows_error_of_malformed rows [] hbad

/-- Witness for C5: a three-column row after two well-formed rows aborts the
whole load. -/
theorem load_fails_on_malformed_row_witness :
    (∃ r ∈ [[strCodes "UniProt KB", strCodes "u"],
            [strCodes "a", strCodes "b", strCodes "c"],
            [strCodes "HMDB", strCodes "h"]], parseRow r = none) ∧
    loadSparqlEndpoints
        [[strCodes "name", strCodes "url"],
         [strCodes "UniProt KB", strCodes "u"],
         [strCodes "a", strCodes "b", strCodes "c"],
         [strCodes "HMDB", strCodes "h"]] = .error .malformedRow :=
  ⟨by decide, load_fails_on_malformed_row _ _ (by decide)⟩

/-- C6: on a well-formed table the loader never fails, every key of the
resulting mapping occurs exactly once, and each key is bound to the URL of
the last row (in file order) whose display name normalizes to it —
last-write-wins, also when several rows collide on one canonical key. -/
theorem load_duplicate_keys_last_write_wins (header : List PyStr)
    (rows : List (List PyStr)) (hwf : ∀ r ∈ rows, (parseRow r).isSome) :
    ∃ d, loadSparqlEndpoints (header :: rows) = .ok d ∧
      (∀ k ∈ dictKeys d, countOcc (dictKeys d) k = 1) ∧
      (∀ k, dictLookup d k = lastUrlFor rows k) := by
  obtain ⟨d2, hok, hnd, hlk⟩ := loadRows_wf_spec rows [] hwf
  refine ⟨d2, hok, ?_, ?_⟩
  · intro k hk
    exact countOcc_eq_one_of_nodup_mem _ _ (hnd (by simp [dictKeys])) hk
  · intro k
    rw [hlk k]
    cases hl : lastUrlFor rows k <;> simp [dictLookup_nil_eq]

/-- Witness for C6: `"Uni-Prot"` and `"UNIPROT"` both normalize to
`"uniprot"`; the load succeeds and the key is bound to the second row's URL. -/
theorem load_duplicate_keys_witness :
    (∀ r ∈ [[strCodes "Uni-Prot", strCodes "https://first.example"],
            [strCodes "UNIPROT", strCodes "https://second.example"]],
      (parseRow r).isSome) ∧
    (∃ d, loadSparqlEndpoints
        [[strCodes "name", strCodes "url"],
         [strCodes "Uni-Prot", strCodes "https://first.example"],
         [strCodes "UNIPROT", strCodes "https://second.example"]] = .ok d ∧
      (∀ k ∈ dictKeys d, countOcc (dictKeys d) k = 1) ∧
      (∀ k, dictLookup d k =
        lastUrlFor [[strCodes "Uni-Prot", strCodes "https://first.example"],
                    [strCodes "UNIPROT", strCodes "https://second.example"]] k)) :=
  ⟨by decide, load_duplicate_keys_last_write_wins _ _ (by decide)⟩

/-- C9: every key of a successfully loaded endpoint table is entirely
lower-case and contains no space and no hyphen. -/
theorem loader_keys_invariant (csvRows : List (List PyStr)) (d : List (PyStr × PyStr))
    (h : loadSparqlEndpoints csvRows = .ok d) :
    ∀ k ∈ dictKeys d, canonicalShaped k := by
  cases csvRows with
  | nil => simp [loadSparqlEndpoints] at h
  | cons header rows =>
    intro k hk
    rcases loadRows_keys_origin rows [] d h k hk with h0 | ⟨name, rfl⟩
    · simp [dictKeys] at h0
    · exact canonicalKey_shaped name

/-- Witness for C9: a concrete mixed-case table with spaces and hyphens. -/
theorem loader_keys_invariant_witness :
    loadSparqlEndpoints
        [[strCodes "name", strCodes "url"],
         [strCodes "UniProt KB", strCodes "u"],
         [strCodes "Bio-Sample DB", strCodes "v"]] =
      .ok [(strCodes "uniprot_kb", strCodes "u"),
           (strCodes "biosample_db", strCodes "v")] ∧
    (∀ k ∈ dictKeys [(strCodes "uniprot_kb", strCodes "u"),
                     (strCodes "biosample_db", strCodes "v")], canonicalShaped k) :=
  ⟨by decide,
    loader_keys_invariant
      [[strCodes "name", strCodes "url"],
       [strCodes "UniProt KB", strCodes "u"],
       [strCodes "Bio-Sample DB", strCodes "v"]]
      [(strCodes "uniprot_kb", strCodes "u"),
       (strCodes "biosample_db", strCodes "v")]
      (by decide)⟩

/-! ## Claims about the query executor -/

/-- C3: for every query and every database key absent from the endpoint
table, `execute_sparql` fails with the unknown-database error before any
network call: the request trace is empty. -/
theorem execute_unknown_db_no_request (table : List (PyStr × PyStr))
    (net : Request → HttpResponse) (sparqlQuery dbname : PyStr)
    (h : dictLookup table dbname = none) :
    executeSparql table net sparqlQuery dbname =
      (.error (.unknownDatabase dbname), []) := by
  simp [executeSparql, h]

/-- Witness for C3: querying `"pdb"` against a table holding only
`"uniprot_kb"` fails without issuing a request. -/
theorem execute_unknown_db_no_request_witness :
    dictLookup [(strCodes "uniprot_kb", strCodes "https://u.example/sparql")]
        (strCodes "pdb") = none ∧
    executeSparql [(strCodes "uniprot_kb", strCodes "https://u.example/sparql")]
        (fun _ => ⟨200, strCodes "s,p,o"⟩) (strCodes "SELECT 1") (strCodes "pdb") =
      (.error (.unknownDatabase (strCodes "pdb")), []) :=
  ⟨by decide, execute_unknown_db_no_request _ _ _ _ (by decide)⟩

/-- C4: for every query and every key present in the table, `execute_sparql`
issues exactly one request, to the resolved URL, carrying the query text and
an `Accept: text/csv` header; on a 2xx status it returns the response body
verbatim. -/
theorem execute_known_db_single_request (table : List (PyStr × PyStr))
    (net : Request → HttpResponse) (sparqlQuery dbname url : PyStr)
    (h : dictLookup table dbname = some url) :
    (executeSparql table net sparqlQuery dbname).2 =
      [⟨url, sparqlQuery, strCodes "text/csv"⟩] ∧
    (200 ≤ (net ⟨url, sparqlQuery, strCodes "text/csv"⟩).status ∧
        (net ⟨url, sparqlQuery, strCodes "text/csv"⟩).status < 300 →
      (executeSparql table net sparqlQuery dbname).1 =
        .ok (net ⟨url, sparqlQuery, strCodes "text/csv"⟩).text) := by
  constructor
  · simp only [executeSparql, h]
    split <;> rfl
  · intro hs
    simp only [executeSparql, h]
    rw [if_pos hs]

/-- Witness for C4: a one-row table, a network stub answering 200 with body
`"s,p,o"`; the single request carries the query and the CSV accept header,
and the body comes back unchanged. -/
theorem execute_known_db_single_request_witness :
    dictLookup [(strCodes "uniprot_kb", strCodes "https://u.example/sparql")]
        (strCodes "uniprot_kb") = some (strCodes "https://u.example/sparql") ∧
    ((executeSparql [(strCodes "uniprot_kb", strCodes "https://u.example/sparql")]
          (fun _ => ⟨200, strCodes "s,p,o"⟩) (strCodes "SELECT 1")
          (strCodes "uniprot_kb")).2 =
        [⟨strCodes "https://u.example/sparql", strCodes "SELECT 1",
          strCodes "text/csv"⟩] ∧
      (200 ≤ ((fun (_ : Request) => (⟨200, strCodes "s,p,o"⟩ : HttpResponse))
            ⟨strCodes "https://u.example/sparql", strCodes "SELECT 1",
              strCodes "text/csv"⟩).status ∧
          ((fun (_ : Request) => (⟨200, strCodes "s,p,o"⟩ : HttpResponse))
            ⟨strCodes "https://u.example/sparql", strCodes "SELECT 1",
              strCodes "text/csv"⟩).status < 300 →
        (executeSparql [(strCodes "uniprot_kb", strCodes "https://u.example/sparql")]
            (fun _ => ⟨200, strCodes "s,p,o"⟩) (strCodes "SELECT 1")
            (strCodes "uniprot_kb")).1 =
          .ok ((fun (_ : Request) => (⟨200, strCodes "s,p,o"⟩ : HttpResponse))
            ⟨strCodes "https://u.example/sparql", strCodes "SELECT 1",
              strCodes "text/csv"⟩).text)) :=
  ⟨by decide, execute_known_db_single_request _ _ _ _ _ (by decide)⟩

/-! ## Claims about the tool registry merge and generated-tool naming -/

/-- C2, counterexample: the merge loop is not atomic.  Starting from a
registry holding `"get_sparql_endpoints"`, merging the batch
`["togoId_getAllDataset", "get_sparql_endpoints"]` fails with a name
collision, yet the batch's first descriptor `"togoId_getAllDataset"` is
present in the registry afterward. -/
theorem registerAll_not_atomic_counterexample :
    (registerAllLoop [strCodes "get_sparql_endpoints"]
        [strCodes "togoId_getAllDataset", strCodes "get_sparql_endpoints"]).2 =
      some (.nameCollision (strCodes "get_sparql_endpoints")) ∧
    strCodes "togoId_getAllDataset" ∈
      (registerAllLoop [strCodes "get_sparql_endpoints"]
        [strCodes "togoId_getAllDataset", strCodes "get_sparql_endpoints"]).1 := by
  decide

/-- C2, amended: the merge fails at the first colliding descriptor with
`NameCollision`, and the registry afterward holds exactly the initial
contents plus the batch descriptors preceding the colliding one — the
colliding descriptor and all later ones are not registered, but the earlier
ones remain (the merge is partial, not atomic). -/
theorem registerAll_partial_on_collision (reg pre : List PyStr) (n : PyStr)
    (post : List PyStr) (hfresh : ∀ m ∈ pre, m ∉ reg) (hnd : pre.Nodup)
    (hcol : n ∈ reg ++ pre) :
    registerAllLoop reg (pre ++ n :: post) =
      (reg ++ pre, some (.nameCollision n)) := by
  induction pre generalizing reg with
  | nil =>
    simp only [List.append_nil] at hcol
    simp [registerAllLoop, register, hcol]
  | cons a pre ih =>
    have ha : a ∉ reg := hfresh a (List.mem_cons_self a pre)
    have hstep : register reg a = .ok (reg ++ [a]) := by simp [register, ha]
    have hfresh2 : ∀ m ∈ pre, m ∉ reg ++ [a] := by
      intro m hm
      simp only [List.mem_append, List.mem_singleton]
      rintro (h1 | h1)
      · exact hfresh m (List.mem_cons_of_mem a hm) h1
      · exact (List.nodup_cons.mp hnd).1 (h1 ▸ hm)
    have hcol2 : n ∈ (reg ++ [a]) ++ pre := by
      rw [List.append_cons] at hcol
      exact hcol
    have := ih (reg ++ [a]) hfresh2 (List.nodup_cons.mp hnd).2 hcol2
    simp only [List.cons_append, registerAllLoop, hstep, List.append_eq]
    rw [this, ← List.append_cons]

/-- Witness for C2's amended statement: initial registry `["x"]`, batch
`["a", "x", "b"]`: the merge stops at `"x"`, `"a"` stays registered, `"b"`
is never added. -/
theorem registerAll_partial_on_collision_witness :
    (∀ m ∈ [strCodes "a"], m ∉ [strCodes "x"]) ∧
    ([strCodes "a"] : List PyStr).Nodup ∧
    strCodes "x" ∈ [strCodes "x"] ++ [strCodes "a"] ∧
    registerAllLoop [strCodes "x"] ([strCodes "a"] ++ strCodes "x" :: [strCodes "b"]) =
      ([strCodes "x"] ++ [strCodes "a"], some (.nameCollision (strCodes "x"))) :=
  ⟨by decide, by decide, by decide,
    registerAll_partial_on_collision _ _ _ _ (by decide) (by decide) (by decide)⟩

/-- C7: the generated tool name is the rename-map entry when one exists (and
the operation identifier itself otherwise); in particular with the server's
`mcp_names` map, operation `getAllDataset` is registered under
`togoId_getAllDataset` and not under `getAllDataset`. -/
theorem generated_tool_renamed :
    (∀ renameMap opId,
      generatedToolName renameMap opId = (dictLookup renameMap opId).getD opId) ∧
    generatedToolName mcpNames (strCodes "getAllDataset") =
      strCodes "togoId_getAllDataset" ∧
    generatedToolName mcpNames (strCodes "getAllDataset") ≠
      strCodes "getAllDataset" := by
  refine ⟨?_, by decide, by decide⟩
  intro m opId
  unfold generatedToolName
  cases dictLookup m opId <;> rfl

/-! ## Claims about the evaluation harness -/

theorem isSuccess_makeApiCall (o : ApiOutcome) (t : Nat) :
    isSuccess (makeApiCall o t) = o.success := by
  cases o <;> rfl

/-- Full characterization of the retry loop from attempt `i` with
`remaining ≥ 1` iterations left: it returns the result of some attempt,
makes at most `remaining` calls, sleeps `delay` exactly once between
consecutive failed attempts, every attempt before the returned one failed,
and the returned attempt either succeeded or was the last one allowed. -/
theorem retryFrom_spec (outcomes : Nat → ApiOutcome) (times : Nat → Nat)
    (delay : Nat) : ∀ remaining i, 1 ≤ remaining →
      ∃ t, retryFrom outcomes times delay i remaining = some t ∧
        1 ≤ t.calls ∧ t.calls ≤ remaining ∧
        t.sleeps = List.replicate (t.calls - 1) delay ∧
        t.result = makeApiCall (outcomes (i + (t.calls - 1)))
          (times (i + (t.calls - 1))) ∧
        (∀ j, j < t.calls - 1 → (outcomes (i + j)).success = false) ∧
        ((outcomes (i + (t.calls - 1))).success = true ∨ t.calls = remaining) := by
  intro remaining
  induction remaining with
  | zero => omega
  | succ m ih =>
    intro i _
    match m with
    | 0 =>
      refine ⟨⟨makeApiCall (outcomes i) (times i), 1, []⟩, rfl, ?_, ?_, ?_, ?_, ?_, ?_⟩
      · exact le_refl 1
      · exact le_refl 1
      · rfl
      · dsimp only
        rw [Nat.add_zero]
      · intro j hj
        dsimp only at hj
        omega
      · exact .inr rfl
    | m + 1 =>
      by_cases hs : (outcomes i).success = true
      · refine ⟨⟨makeApiCall (outcomes i) (times i), 1, []⟩, ?_, ?_, ?_, ?_, ?_, ?_, ?_⟩
        · simp [retryFrom, isSuccess_makeApiCall, hs]
        · exact le_refl 1
        · dsimp only
          omega
        · rfl
        · dsimp only
          rw [Nat.add_zero]
        · intro j hj
          dsimp only at hj
          omega
        · left
          dsimp only
          rw [Nat.add_zero]
          exact hs
      · obtain ⟨t, heq, h1, h2, h3, h4, h5, h6⟩ := ih (i + 1) (by omega)
        have hsf : (outcomes i).success = false := by
          simpa using hs
        refine ⟨⟨t.result, t.calls + 1, delay :: t.sleeps⟩, ?_, ?_, ?_, ?_, ?_, ?_, ?_⟩
        · simp [retryFrom, isSuccess_makeApiCall, hsf, heq]
        · dsimp only
          omega
        · dsimp only
          omega
        · dsimp only
          have hc : t.calls + 1 - 1 = t.calls - 1 + 1 := by omega
          rw [hc, List.replicate_succ, h3]
        · dsimp only
          have hidx : i + (t.calls + 1 - 1) = i + 1 + (t.calls - 1) := by omega
          rw [hidx, h4]
        · intro j hj
          dsimp only at hj
          cases j with
          | zero => simpa using hsf
          | succ j' =>
            have hidx : i + (j' + 1) = i + 1 + j' := by omega
            rw [hidx]
            exact h5 j' (by omega)
        · dsimp only
          rcases h6 with h6 | h6
          · left
            have hidx : i + (t.calls + 1 - 1) = i + 1 + (t.calls - 1) := by omega
            rw [hidx]
            exact h6
          · right
            omega

/-- C8: with at least one configured attempt, `_run_with_retry` makes at
most `retry_attempts` calls, returns the first successful call's result
immediately (every earlier attempt failed, and no sleep follows the returned
attempt), sleeps `retry_delay` once between consecutive failed attempts, and
when every attempt fails it returns the last attempt's failed result. -/
theorem run_with_retry_bounded (cfgAttempts cfgDelay : Nat)
    (outcomes : Nat → ApiOutcome) (times : Nat → Nat)
    (hpos : 1 ≤ cfgAttempts) :
    ∃ t, runWithRetry cfgAttempts cfgDelay outcomes times = some t ∧
      1 ≤ t.calls ∧ t.calls ≤ cfgAttempts ∧
      t.sleeps = List.replicate (t.calls - 1) cfgDelay ∧
      t.result = makeApiCall (outcomes (t.calls - 1)) (times (t.calls - 1)) ∧
      (∀ j, j < t.calls - 1 → (outcomes j).success = false) ∧
      ((outcomes (t.calls - 1)).success = true ∨ t.calls = cfgAttempts) := by
  have h := retryFrom_spec outcomes times cfgDelay cfgAttempts 0 hpos
  simpa [runWithRetry] using h

/-- Witness for C8: three attempts, delay 2; the first two calls raise and
the third succeeds. -/
theorem run_with_retry_bounded_witness :
    1 ≤ 3 ∧
    (∃ t, runWithRetry 3 2
        (fun n => if n < 2 then .raised (strCodes "overloaded")
          else .ok ⟨[], strCodes "end_turn", 5, 7⟩)
        (fun _ => 1) = some t ∧
      1 ≤ t.calls ∧ t.calls ≤ 3 ∧
      t.sleeps = List.replicate (t.calls - 1) 2 ∧
      t.result = makeApiCall
        ((fun n => if n < 2 then .raised (strCodes "overloaded")
          else .ok ⟨[], strCodes "end_turn", 5, 7⟩) (t.calls - 1))
        ((fun (_ : Nat) => 1) (t.calls - 1)) ∧
      (∀ j, j < t.calls - 1 →
        ((fun n => if n < 2 then ApiOutcome.raised (strCodes "overloaded")
          else ApiOutcome.ok ⟨[], strCodes "end_turn", 5, 7⟩) j).success = false) ∧
      (((fun n => if n < 2 then ApiOutcome.raised (strCodes "overloaded")
          else ApiOutcome.ok ⟨[], strCodes "end_turn", 5, 7⟩)
            (t.calls - 1)).success = true ∨ t.calls = 3)) :=
  ⟨by decide,
    run_with_retry_bounded 3 2
      (fun n => if n < 2 then .raised (strCodes "overloaded")
        else .ok ⟨[], strCodes "end_turn", 5, 7⟩)
      (fun _ => 1) (by decide)⟩

/-- C10: `_make_api_call` is total over call outcomes — every outcome yields
a result dictionary with the `success` and `elapsed_time` keys; a successful
call additionally carries `text` (the joined text blocks), `tool_uses`,
`stop_reason` and `usage`, and a raised exception yields `success = False`
with the exception's message under `error`. -/
theorem make_api_call_total :
    (∀ o elapsed,
      (lookupKey (makeApiCall o elapsed) (strCodes "success")).isSome ∧
      (lookupKey (makeApiCall o elapsed) (strCodes "elapsed_time")).isSome) ∧
    (∀ r elapsed,
      lookupKey (makeApiCall (.ok r) elapsed) (strCodes "success") =
        some (.vBool true) ∧
      lookupKey (makeApiCall (.ok r) elapsed) (strCodes "text") =
        some (.vStr (List.intercalate (strCodes "\n") (extractTexts r.content))) ∧
      lookupKey (makeApiCall (.ok r) elapsed) (strCodes "tool_uses") =
        some (.vTools (extractToolUses r.content)) ∧
      lookupKey (makeApiCall (.ok r) elapsed) (strCodes "stop_reason") =
        some (.vStr r.stopReason) ∧
      lookupKey (makeApiCall (.ok r) elapsed) (strCodes "usage") =
        some (.vUsage r.inputTokens r.outputTokens) ∧
      lookupKey (makeApiCall (.ok r) elapsed) (strCodes "elapsed_time") =
        some (.vFloat elapsed)) ∧
    (∀ msg elapsed,
      lookupKey (makeApiCall (.raised msg) elapsed) (strCodes "success") =
        some (.vBool false) ∧
      lookupKey (makeApiCall (.raised msg) elapsed) (strCodes "error") =
        some (.vStr msg) ∧
      lookupKey (makeApiCall (.raised msg) elapsed) (strCodes "elapsed_time") =
        some (.vFloat elapsed)) := by
  refine ⟨fun o elapsed => ?_, fun r elapsed => ?_, fun msg elapsed => ?_⟩
  · cases o <;> exact ⟨rfl, rfl⟩
  · exact ⟨rfl, rfl, rfl, rfl, rfl, rfl⟩
  · exact ⟨rfl, rfl, rfl⟩

end TogoMCP
